import Mathlib

/-
Shallow embedding of the go-vector package (src/vector.go).

The Go `Vector` holds `multiplier int` and `items []int` (plus a mutex that
only serialises access and is not observable in a sequential model).  A Go
slice carries a length and a capacity; we model the slice as the pair of its
element list and its capacity.  Go `int` values (indices, capacities,
multipliers) are modelled as `Int`; list lengths are `Nat` and are cast where
the Go code compares them with ints.  Methods that mutate the receiver are
modelled as functions returning the new state together with their results;
fallible methods return their Go error value as an `Option GoError`
(`none` = nil error), matching the named-return style of the source.
-/

namespace GoVector

/-- Errors of the package: `ErrInvalidIndex` and `ErrSizeDiffers`. -/
inductive GoError where
  | invalidIndex
  | sizeDiffers
deriving DecidableEq, Repr

/-- The `Vector` state: `multiplier`, and the `items` slice modelled as its
element list plus its capacity. -/
structure Vector where
  multiplier : Int
  items : List Int
  cap : Int
deriving DecidableEq, Repr

/-- `defaultCapacity = 10`. -/
def defaultCapacity : Int := 10

/-- `defaultMultiplier = 2`. -/
def defaultMultiplier : Int := 2

/-- `NewWithCap(cap, multiplier)`: an empty vector with the given capacity
(`make([]int, 0, cap)`) and multiplier. -/
def NewWithCap (c : Int) (multiplier : Int) : Vector :=
  { multiplier := multiplier, items := [], cap := c }

/-- `New()`: `NewWithCap(defaultCapacity, defaultMultiplier)`. -/
def New : Vector :=
  NewWithCap defaultCapacity defaultMultiplier

/-- The private `len()`: `len(v.items)`. -/
def len (v : Vector) : Nat := v.items.length

/-- `Len()`. -/
def Len (v : Vector) : Nat := len v

/-- `Cap()`: `cap(v.items)`. -/
def Cap (v : Vector) : Int := v.cap

/-- `increaseCapTo(newCap)`: no-op unless `newCap > cap`; otherwise moves the
items into a fresh backing array of capacity `newCap` (contents unchanged). -/
def increaseCapTo (v : Vector) (newCap : Int) : Vector :=
  if newCap ≤ v.cap then v
  else { v with cap := newCap }

/-- `increaseCapToAtLest(targetCap)`: no-op if `targetCap <= cap`; otherwise
grows to `cap * multiplier`, bumped to `targetCap` when that product is still
short. -/
def increaseCapToAtLest (v : Vector) (targetCap : Int) : Vector :=
  if targetCap ≤ v.cap then v
  else
    let newCap := v.cap * v.multiplier
    increaseCapTo v (if newCap < targetCap then targetCap else newCap)

/-- A raw Go slice append.  When the new length fits the capacity Go appends
in place; otherwise the runtime reallocates with capacity at least the new
length (the vector code always ensures capacity first, so the exact growth
policy of the runtime is never observable and we model it by the minimal
capacity). -/
def sliceAppend (v : Vector) (xs : List Int) : Vector :=
  { v with
    items := v.items ++ xs
    cap := if ((v.items.length + xs.length : Nat) : Int) ≤ v.cap then v.cap
           else ((v.items.length + xs.length : Nat) : Int) }

/-- The private `append(items...)`: ensure capacity for the new length, then
append the items. -/
def appendGo (v : Vector) (xs : List Int) : Vector :=
  sliceAppend (increaseCapToAtLest v ((len v : Int) + xs.length)) xs

/-- `Append(item)`. -/
def Append (v : Vector) (item : Int) : Vector := appendGo v [item]

/-- `AppendAll(items...)`. -/
def AppendAll (v : Vector) (xs : List Int) : Vector := appendGo v xs

/-- `From(items...)`: `New()` followed by `AppendAll(items...)`. -/
def From (xs : List Int) : Vector := AppendAll New xs

/-- `checkIndex(index)`: `ErrInvalidIndex` when `index < 0 || index > len-1`. -/
def checkIndex (v : Vector) (index : Int) : Option GoError :=
  if index < 0 ∨ index > (len v : Int) - 1 then some .invalidIndex else none

/-- Go `copy(dst, src)`: overwrites the first `min |dst| |src|` cells of `dst`
with the corresponding values of `src` (memmove semantics). -/
def goCopy (dst src : List Int) : List Int :=
  src.take (min dst.length src.length) ++ dst.drop (min dst.length src.length)

/-- The three mutation steps of the insert branch of `Add`, on the backing
list `l0` that already received the extra `0` slot:
`copy(l0[index+1:], l0[index:])` then `l0[index] = item`. -/
def copySetSteps (l0 : List Int) (i : Nat) (x : Int) : List Int :=
  (l0.take (i + 1) ++ goCopy (l0.drop (i + 1)) (l0.drop i)).set i x

/-- `Add(index, item)`: append when `index == 0` on an empty vector; otherwise
check the index, ensure capacity for one more element, append a `0` slot,
shift the tail right with `copy`, and write `item` at `index`.  Returns the
new state and the error. -/
def Add (v : Vector) (index : Int) (item : Int) : Vector × Option GoError :=
  if index = 0 ∧ len v = 0 then
    (appendGo v [item], none)
  else
    match checkIndex v index with
    | some e => (v, some e)
    | none =>
      let v1 := increaseCapToAtLest v ((len v : Int) + 1)
      let v2 := sliceAppend v1 [0]
      ({ v2 with items := copySetSteps v2.items index.toNat item }, none)

/-- `Set(index, item)`: check the index then overwrite in place. -/
def Set (v : Vector) (index : Int) (item : Int) : Vector × Option GoError :=
  match checkIndex v index with
  | some e => (v, some e)
  | none => ({ v with items := v.items.set index.toNat item }, none)

/-- The private `remove(index)`: `append(v.items[:index], v.items[index+1:]...)`,
returning the removed element (capacity is untouched, the prefix slice keeps
its backing array). -/
def removeGo (v : Vector) (i : Nat) : Vector × Int :=
  ({ v with items := v.items.take i ++ v.items.drop (i + 1) },
   v.items.getD i 0)

/-- `Remove(index)`: check the index then delegate to `remove`.  Result is
(state, removed item, error); the item is the Go zero value 0 on error. -/
def Remove (v : Vector) (index : Int) : Vector × Int × Option GoError :=
  match checkIndex v index with
  | some e => (v, 0, some e)
  | none =>
    let p := removeGo v index.toNat
    (p.1, p.2, none)

/-- `Peek(index)`: check the index then read; the named return is 0 on error. -/
def Peek (v : Vector) (index : Int) : Int × Option GoError :=
  match checkIndex v index with
  | some e => (0, some e)
  | none => (v.items.getD index.toNat 0, none)

/-- `Clear()`: `v.items = v.items[:0]` (length 0, capacity kept). -/
def Clear (v : Vector) : Vector := { v with items := [] }

/-- `Slice()`: a fresh copy of the element list. -/
def Slice (v : Vector) : List Int := v.items

/-- What the body of `Clone` builds into its local variable: a vector with the
same capacity and multiplier, filled with the elements of `v`. -/
def cloneShadowed (v : Vector) : Vector :=
  appendGo (NewWithCap v.cap v.multiplier) v.items

/-- `Clone()`: the Go method declares a named return `r *Vector` (nil), but
the closure body uses `r := NewWithCap(...)`, which declares a NEW local `r`
shadowing the named return.  The named return is never assigned, so the
method returns nil; the built copy (`cloneShadowed`) is discarded.  The nil
pointer is modelled as `none`. -/
def Clone (v : Vector) : Option Vector :=
  (fun _shadowed => none) (cloneShadowed v)

/-- The loop of `InnerProduct`: `for i, val1 := range v.items { r += val1 *
other.items[i] }`, with `r` accumulated left to right. -/
def ipLoop (other : List Int) : Nat → List Int → Int → Int
  | _, [], r => r
  | i, a :: rest, r => ipLoop other (i + 1) rest (r + a * other.getD i 0)

/-- `InnerProduct(other)`: `ErrSizeDiffers` when the lengths differ, else the
sum of elementwise products (named return `r` starts at 0). -/
def InnerProduct (v other : Vector) : Int × Option GoError :=
  if len v ≠ len other then (0, some .sizeDiffers)
  else (ipLoop other.items 0 v.items 0, none)

/-- The loop of `Any` through `each`: `r` starts false; a satisfying element
sets it true and stops the traversal. -/
def anyLoop (p : Int → Bool) : List Int → Bool → Bool
  | [], r => r
  | x :: rest, r => if p x then true else anyLoop p rest r

/-- `Any(cb)`. -/
def Any (v : Vector) (p : Int → Bool) : Bool := anyLoop p v.items false

/-- The loop of `All` through `each`: `r` starts false and is set true at
index 0; a failing element sets it false and stops the traversal. -/
def allLoop (p : Int → Bool) : List Int → Nat → Bool → Bool
  | [], _, r => r
  | x :: rest, i, r =>
    let r1 := if i = 0 then true else r
    if ¬ p x then false else allLoop p rest (i + 1) r1

/-- `All(cb)`. -/
def All (v : Vector) (p : Int → Bool) : Bool := allLoop p v.items 0 false

/-- The loop of `RemoveIf`: `i` runs from `len-1` down to `0`; a matching
element is removed in place (the argument is the number of indices still to
visit). -/
def riLoop (p : Int → Bool) : Nat → List Int → List Int
  | 0, l => l
  | i + 1, l =>
    riLoop p i (if p (l.getD i 0) then l.take i ++ l.drop (i + 1) else l)

/-- `RemoveIf(cb)`: traverse from the last index to the first, removing every
matching element. -/
def RemoveIf (v : Vector) (p : Int → Bool) : Vector :=
  { v with items := riLoop p v.items.length v.items }

/-- The loop of `Accumulate` over the remaining source elements `rest`:
`a, _ := r.Peek(r.Len()-1); r.Append(cb(a, b))`. -/
def accGo (cb : Int → Int → Int) (r : Vector) : List Int → Vector
  | [] => r
  | b :: rest => accGo cb (Append r (cb (Peek r ((Len r : Int) - 1)).1 b)) rest

/-- `Accumulate(cb)`: a fresh `New()` result vector; empty input is returned
as is, else the head is appended and the loop combines each further element
with the last element of the result so far. -/
def Accumulate (v : Vector) (cb : Int → Int → Int) : Vector :=
  if len v = 0 then New
  else accGo cb (Append New (v.items.getD 0 0)) (v.items.drop 1)

/-- Characterisation helper for the loop of `Accumulate`: the elements the
loop appends after the head, given the running value `a`. -/
def accTail (cb : Int → Int → Int) (a : Int) : List Int → List Int
  | [] => []
  | b :: rest => cb a b :: accTail cb (cb a b) rest

/-- The mutating operations of the package, for stating whole-trace
invariants. -/
inductive Op where
  | add (index item : Int)
  | set (index item : Int)
  | append (item : Int)
  | appendAll (xs : List Int)
  | remove (index : Int)
  | removeIf (p : Int → Bool)
  | clear

/-- Run one operation, keeping only the state (results and errors dropped). -/
def stepOp (v : Vector) : Op → Vector
  | .add i x => (Add v i x).1
  | .set i x => (Set v i x).1
  | .append x => Append v x
  | .appendAll xs => AppendAll v xs
  | .remove i => (Remove v i).1
  | .removeIf p => RemoveIf v p
  | .clear => Clear v

/-- Run a sequence of operations. -/
def runOps (v : Vector) (ops : List Op) : Vector :=
  ops.foldl stepOp v

/-! ### Basic lemmas about capacity growth and the raw slice operations -/

theorem increaseCapTo_items (v : Vector) (c : Int) :
    (increaseCapTo v c).items = v.items := by
  unfold increaseCapTo; split <;> rfl

theorem increaseCapTo_multiplier (v : Vector) (c : Int) :
    (increaseCapTo v c).multiplier = v.multiplier := by
  unfold increaseCapTo; split <;> rfl

theorem increaseCapTo_cap (v : Vector) (c : Int) :
    (increaseCapTo v c).cap = max v.cap c := by
  unfold increaseCapTo
  split
  · omega
  · dsimp
    omega

theorem increaseCapToAtLest_items (v : Vector) (t : Int) :
    (increaseCapToAtLest v t).items = v.items := by
  unfold increaseCapToAtLest; split
  · rfl
  · exact increaseCapTo_items _ _

theorem increaseCapToAtLest_multiplier (v : Vector) (t : Int) :
    (increaseCapToAtLest v t).multiplier = v.multiplier := by
  unfold increaseCapToAtLest; split
  · rfl
  · exact increaseCapTo_multiplier _ _

theorem increaseCapToAtLest_cap (v : Vector) (t : Int) :
    (increaseCapToAtLest v t).cap =
      if t ≤ v.cap then v.cap
      else max v.cap (if v.cap * v.multiplier < t then t else v.cap * v.multiplier) := by
  unfold increaseCapToAtLest
  split
  · simp_all
  · rename_i h
    show (increaseCapTo v
        (if v.cap * v.multiplier < t then t else v.cap * v.multiplier)).cap = _
    rw [increaseCapTo_cap]

theorem increaseCapToAtLest_le (v : Vector) (t : Int) :
    v.cap ≤ (increaseCapToAtLest v t).cap ∧ t ≤ (increaseCapToAtLest v t).cap := by
  rw [increaseCapToAtLest_cap]
  split
  · omega
  · split <;> omega

theorem increaseCapToAtLest_cap_of_lt (v : Vector) (t : Int) (h : v.cap < t) :
    (increaseCapToAtLest v t).cap = max (v.cap * v.multiplier) t := by
  rw [increaseCapToAtLest_cap, if_neg (by omega : ¬ t ≤ v.cap)]
  split <;> omega

theorem sliceAppend_items (v : Vector) (xs : List Int) :
    (sliceAppend v xs).items = v.items ++ xs := rfl

theorem sliceAppend_multiplier (v : Vector) (xs : List Int) :
    (sliceAppend v xs).multiplier = v.multiplier := rfl

theorem sliceAppend_inv (v : Vector) (xs : List Int) :
    ((sliceAppend v xs).items.length : Int) ≤ (sliceAppend v xs).cap
      ∧ v.cap ≤ (sliceAppend v xs).cap := by
  unfold sliceAppend
  split <;> simp [List.length_append] <;> omega

theorem sliceAppend_cap_of_fits (v : Vector) (xs : List Int)
    (h : ((v.items.length + xs.length : Nat) : Int) ≤ v.cap) :
    (sliceAppend v xs).cap = v.cap := by
  unfold sliceAppend
  split
  · rfl
  · dsimp

theorem appendGo_items (v : Vector) (xs : List Int) :
    (appendGo v xs).items = v.items ++ xs := by
  unfold appendGo
  rw [sliceAppend_items, increaseCapToAtLest_items]

theorem appendGo_multiplier (v : Vector) (xs : List Int) :
    (appendGo v xs).multiplier = v.multiplier := by
  unfold appendGo
  rw [sliceAppend_multiplier, increaseCapToAtLest_multiplier]

theorem appendGo_cap (v : Vector) (xs : List Int) :
    (appendGo v xs).cap = (increaseCapToAtLest v ((len v : Int) + xs.length)).cap := by
  unfold appendGo
  apply sliceAppend_cap_of_fits
  rw [increaseCapToAtLest_items]
  have h := (increaseCapToAtLest_le v ((len v : Int) + xs.length)).2
  unfold len at h ⊢
  push_cast
  omega

theorem appendGo_inv (v : Vector) (xs : List Int) :
    ((appendGo v xs).items.length : Int) ≤ (appendGo v xs).cap
      ∧ v.cap ≤ (appendGo v xs).cap := by
  unfold appendGo
  refine ⟨(sliceAppend_inv _ _).1, le_trans ?_ (sliceAppend_inv _ _).2⟩
  exact (increaseCapToAtLest_le v _).1

/-! ### The insert steps of `Add` amount to a list insertion -/

theorem copySetSteps_zero (l : List Int) (x : Int) :
    copySetSteps (l ++ [0]) 0 x = x :: l := by
  cases l with
  | nil => rfl
  | cons a l =>
    unfold copySetSteps goCopy
    simp

theorem copySetSteps_cons (a : Int) (l0 : List Int) (i : Nat) (x : Int) :
    copySetSteps (a :: l0) (i + 1) x = a :: copySetSteps l0 i x := by
  simp only [copySetSteps, goCopy, List.take_succ_cons, List.drop_succ_cons,
    List.length_cons, List.cons_append, List.set_cons_succ]

theorem copySetSteps_insert (l : List Int) (i : Nat) (x : Int) (h : i ≤ l.length) :
    copySetSteps (l ++ [0]) i x = l.take i ++ x :: l.drop i := by
  induction i generalizing l with
  | zero => simpa using copySetSteps_zero l x
  | succ i ih =>
    cases l with
    | nil => simp at h
    | cons a l =>
      rw [List.cons_append, copySetSteps_cons, ih l (by simpa using h)]
      simp [List.take_succ_cons, List.drop_succ_cons]

theorem copySetSteps_length (l0 : List Int) (i : Nat) (x : Int) :
    (copySetSteps l0 i x).length = l0.length := by
  simp only [copySetSteps, goCopy, List.length_set, List.length_append,
    List.length_take, List.length_drop]
  omega

/-! ### Characterisations of the indexed operations -/

theorem checkIndex_none (v : Vector) (i : Int) :
    checkIndex v i = none ↔ 0 ≤ i ∧ i < (v.items.length : Int) := by
  unfold checkIndex len
  split <;> rename_i h
  · exact iff_of_false (by simp) (by omega)
  · exact iff_of_true rfl (by omega)

theorem checkIndex_some (v : Vector) (i : Int) :
    checkIndex v i = some GoError.invalidIndex
      ↔ (i < 0 ∨ (v.items.length : Int) ≤ i) := by
  unfold checkIndex len
  split <;> rename_i h
  · exact iff_of_true rfl (by omega)
  · exact iff_of_false (by simp) (by omega)

theorem Add_empty (v : Vector) (x : Int) (h : v.items = []) :
    Add v 0 x = (appendGo v [x], none) := by
  unfold Add
  rw [if_pos ⟨rfl, by simp [len, h]⟩]

theorem Add_err (v : Vector) (i x : Int)
    (h : i < 0 ∨ ((v.items.length : Int) ≤ i ∧ ¬(i = 0 ∧ v.items = []))) :
    Add v i x = (v, some GoError.invalidIndex) := by
  unfold Add
  rw [if_neg]
  · have hc : checkIndex v i = some GoError.invalidIndex := by
      rw [checkIndex_some]
      omega
    rw [hc]
  · rintro ⟨h0, hlen⟩
    unfold len at hlen
    rcases h with h | ⟨h1, h2⟩
    · omega
    · exact h2 ⟨h0, by simpa using hlen⟩

theorem Add_insert (v : Vector) (i x : Int)
    (h0 : 0 ≤ i) (h1 : i < (v.items.length : Int)) :
    Add v i x
      = ({ multiplier := v.multiplier,
           items := v.items.take i.toNat ++ x :: v.items.drop i.toNat,
           cap := (increaseCapToAtLest v ((v.items.length : Int) + 1)).cap },
         none) := by
  unfold Add
  rw [if_neg (by rintro ⟨h2, hl⟩; unfold len at hl; omega)]
  have hc : checkIndex v i = none := (checkIndex_none v i).mpr ⟨h0, h1⟩
  rw [hc]
  have hitems : (sliceAppend (increaseCapToAtLest v ((len v : Int) + 1)) [0]).items
      = v.items ++ [0] := by
    rw [sliceAppend_items, increaseCapToAtLest_items]
  have hmult : (sliceAppend (increaseCapToAtLest v ((len v : Int) + 1)) [0]).multiplier
      = v.multiplier := by
    rw [sliceAppend_multiplier, increaseCapToAtLest_multiplier]
  have hcap : (sliceAppend (increaseCapToAtLest v ((len v : Int) + 1)) [0]).cap
      = (increaseCapToAtLest v ((v.items.length : Int) + 1)).cap := by
    have := appendGo_cap v [0]
    unfold appendGo at this
    unfold len at this ⊢
    simpa using this
  have hins : copySetSteps (v.items ++ [0]) i.toNat x
      = v.items.take i.toNat ++ x :: v.items.drop i.toNat :=
    copySetSteps_insert v.items i.toNat x (by omega)
  simp only [Prod.mk.injEq, and_true]
  rw [Vector.mk.injEq]
  refine ⟨hmult, ?_, hcap⟩
  rw [hitems, hins]

theorem Set_err (v : Vector) (i x : Int)
    (h : i < 0 ∨ (v.items.length : Int) ≤ i) :
    Set v i x = (v, some GoError.invalidIndex) := by
  unfold Set
  rw [(checkIndex_some v i).mpr h]

theorem Set_ok (v : Vector) (i x : Int)
    (h0 : 0 ≤ i) (h1 : i < (v.items.length : Int)) :
    Set v i x = ({ v with items := v.items.set i.toNat x }, none) := by
  unfold Set
  rw [(checkIndex_none v i).mpr ⟨h0, h1⟩]

theorem Remove_err (v : Vector) (i : Int)
    (h : i < 0 ∨ (v.items.length : Int) ≤ i) :
    Remove v i = (v, 0, some GoError.invalidIndex) := by
  unfold Remove
  rw [(checkIndex_some v i).mpr h]

theorem Remove_ok (v : Vector) (i : Int)
    (h0 : 0 ≤ i) (h1 : i < (v.items.length : Int)) :
    Remove v i = ({ v with items := v.items.take i.toNat ++ v.items.drop (i.toNat + 1) },
      v.items.getD i.toNat 0, none) := by
  unfold Remove removeGo
  rw [(checkIndex_none v i).mpr ⟨h0, h1⟩]

theorem Peek_err (v : Vector) (i : Int)
    (h : i < 0 ∨ (v.items.length : Int) ≤ i) :
    Peek v i = (0, some GoError.invalidIndex) := by
  unfold Peek
  rw [(checkIndex_some v i).mpr h]

theorem Peek_ok (v : Vector) (i : Int)
    (h0 : 0 ≤ i) (h1 : i < (v.items.length : Int)) :
    Peek v i = (v.items.getD i.toNat 0, none) := by
  unfold Peek
  rw [(checkIndex_none v i).mpr ⟨h0, h1⟩]

/-! ### The loop of `RemoveIf` computes a filter -/

theorem riLoop_take_drop (p : Int → Bool) :
    ∀ (i : Nat) (l : List Int), i ≤ l.length →
      riLoop p i l = (l.take i).filter (fun x => !(p x)) ++ l.drop i := by
  intro i
  induction i with
  | zero => intro l h; simp [riLoop]
  | succ i ih =>
    intro l h
    have hi : i < l.length := by omega
    unfold riLoop
    rw [List.getD_eq_getElem l 0 hi]
    by_cases hp : p l[i] = true
    · rw [if_pos hp]
      have hlen1 : i ≤ (l.take i ++ l.drop (i + 1)).length := by
        simp [List.length_take, List.length_drop]
        omega
      have h1 : (l.take i).length = i := by
        simp
        omega
      have ht : (l.take i ++ l.drop (i + 1)).take i = l.take i := by
        rw [List.take_append_eq_append_take, List.take_take, h1]
        simp
      have hd : (l.take i ++ l.drop (i + 1)).drop i = l.drop (i + 1) := by
        rw [List.drop_append_eq_append_drop, h1]
        have h2 : List.drop i (l.take i) = [] := List.drop_eq_nil_of_le (by simp)
        rw [h2]
        simp
      rw [ih _ hlen1, ht, hd]
      congr 1
      rw [List.take_succ, List.getElem?_eq_getElem hi, List.filter_append]
      simp [hp]
    · rw [if_neg hp, ih l (by omega), List.drop_eq_getElem_cons hi,
        List.take_succ, List.getElem?_eq_getElem hi, List.filter_append]
      simp [hp]

theorem riLoop_filter (p : Int → Bool) (l : List Int) :
    riLoop p l.length l = l.filter (fun x => !(p x)) := by
  rw [riLoop_take_drop p l.length l (le_refl _)]
  simp

theorem RemoveIf_items (v : Vector) (p : Int → Bool) :
    (RemoveIf v p).items = v.items.filter (fun x => !(p x)) := by
  unfold RemoveIf
  exact riLoop_filter p v.items

/-! ### The loops of `Any` and `All` -/

theorem anyLoop_false (p : Int → Bool) :
    ∀ l : List Int, anyLoop p l false = l.any p := by
  intro l
  induction l with
  | nil => rfl
  | cons x rest ih =>
    unfold anyLoop
    by_cases hp : p x = true <;> simp [hp, ih]

theorem Any_eq_any (v : Vector) (p : Int → Bool) :
    Any v p = v.items.any p :=
  anyLoop_false p v.items

theorem allLoop_true (p : Int → Bool) :
    ∀ (l : List Int) (i : Nat), allLoop p l (i + 1) true = l.all p := by
  intro l
  induction l with
  | nil => intro i; rfl
  | cons x rest ih =>
    intro i
    unfold allLoop
    by_cases hp : p x = true <;> simp [hp, ih]

theorem All_empty (v : Vector) (p : Int → Bool) (h : v.items = []) :
    All v p = false := by
  unfold All
  rw [h]
  rfl

theorem All_eq_all (v : Vector) (p : Int → Bool) (h : v.items ≠ []) :
    All v p = v.items.all p := by
  unfold All
  cases hv : v.items with
  | nil => exact absurd hv h
  | cons x rest =>
    unfold allLoop
    by_cases hp : p x = true <;> simp [hp, allLoop_true]

/-! ### The loop of `InnerProduct` -/

theorem ipLoop_eq (l2 : List Int) :
    ∀ (l1 : List Int) (i : Nat) (r : Int),
      ipLoop l2 i l1 r = r + (List.zipWith (fun a b => a * b) l1 (l2.drop i)).sum := by
  intro l1
  induction l1 with
  | nil => intro i r; simp [ipLoop]
  | cons a rest ih =>
    intro i r
    unfold ipLoop
    rw [ih]
    rcases lt_or_le i l2.length with h | h
    · rw [List.drop_eq_getElem_cons h, List.getD_eq_getElem l2 0 h,
        List.zipWith_cons_cons]
      simp
      ring
    · rw [List.drop_eq_nil_of_le h, List.drop_eq_nil_of_le (by omega : l2.length ≤ i + 1),
        List.getD_eq_default l2 0 h]
      simp

/-! ### The loop of `Accumulate` -/

theorem Append_items (v : Vector) (x : Int) :
    (Append v x).items = v.items ++ [x] := by
  unfold Append
  rw [appendGo_items]

theorem Peek_last (v : Vector) (h : v.items ≠ []) :
    Peek v ((Len v : Int) - 1) = (v.items.getD (v.items.length - 1) 0, none) := by
  have hl : 0 < v.items.length := List.length_pos.mpr h
  unfold Len len
  rw [Peek_ok v _ (by omega) (by omega)]
  have ht : ((v.items.length : Int) - 1).toNat = v.items.length - 1 := by omega
  rw [ht]

theorem accGo_items (cb : Int → Int → Int) :
    ∀ (rest : List Int) (r : Vector), r.items ≠ [] →
      (accGo cb r rest).items
        = r.items ++ accTail cb (r.items.getD (r.items.length - 1) 0) rest := by
  intro rest
  induction rest with
  | nil => intro r h; simp [accGo, accTail]
  | cons b rest ih =>
    intro r h
    unfold accGo
    rw [Peek_last r h]
    set a := r.items.getD (r.items.length - 1) 0 with ha
    have h2 : (Append r (cb a b)).items = r.items ++ [cb a b] := Append_items r (cb a b)
    rw [ih (Append r (cb a b)) (by rw [h2]; simp), h2]
    have h3 : (r.items ++ [cb a b]).getD ((r.items ++ [cb a b]).length - 1) 0
        = cb a b := by
      have hlen : (r.items ++ [cb a b]).length = r.items.length + 1 := by simp
      rw [hlen, Nat.add_sub_cancel, List.getD_eq_getElem _ 0 (by simp)]
      exact List.getElem_concat_length _ _ _ rfl (by simp)
    rw [h3]
    simp [accTail]

theorem accTail_length (cb : Int → Int → Int) :
    ∀ (l : List Int) (a : Int), (accTail cb a l).length = l.length := by
  intro l
  induction l with
  | nil => intro a; rfl
  | cons b rest ih =>
    intro a
    unfold accTail
    simp [ih]

theorem accTail_getD (cb : Int → Int → Int) :
    ∀ (l : List Int) (a : Int) (i : Nat), i < l.length →
      (accTail cb a l).getD i 0
        = cb ((a :: accTail cb a l).getD i 0) (l.getD i 0) := by
  intro l
  induction l with
  | nil => intro a i hi; simp at hi
  | cons b rest ih =>
    intro a i hi
    cases i with
    | zero => simp [accTail]
    | succ i =>
      have hi2 : i < rest.length := by simpa using hi
      show (accTail cb a (b :: rest)).getD (i + 1) 0 = _
      unfold accTail
      rw [List.getD_cons_succ, List.getD_cons_succ, List.getD_cons_succ]
      exact ih (cb a b) i hi2

theorem Accumulate_items (v : Vector) (cb : Int → Int → Int) (x : Int)
    (xs : List Int) (h : v.items = x :: xs) :
    (Accumulate v cb).items = x :: accTail cb x xs := by
  unfold Accumulate
  rw [if_neg (by unfold len; rw [h]; simp)]
  have h0 : v.items.getD 0 0 = x := by rw [h]; rfl
  have hd : v.items.drop 1 = xs := by rw [h]; rfl
  rw [h0, hd]
  have hne : (Append New x).items ≠ [] := by rw [Append_items]; simp [New, NewWithCap]
  rw [accGo_items cb xs (Append New x) hne]
  have hitems : (Append New x).items = [x] := by
    rw [Append_items]
    rfl
  rw [hitems]
  rfl

theorem Accumulate_empty (v : Vector) (cb : Int → Int → Int) (h : v.items = []) :
    Accumulate v cb = New := by
  unfold Accumulate
  rw [if_pos (by unfold len; rw [h]; rfl)]
/-! ### Per-operation capacity invariants -/

theorem vectorEq (v w : Vector) (h1 : v.multiplier = w.multiplier)
    (h2 : v.items = w.items) (h3 : v.cap = w.cap) : v = w := by
  cases v
  cases w
  cases h1
  cases h2
  cases h3
  rfl

theorem Append_multiplier (v : Vector) (x : Int) :
    (Append v x).multiplier = v.multiplier := by
  unfold Append
  rw [appendGo_multiplier]

theorem Append_cap (v : Vector) (x : Int) :
    (Append v x).cap = (increaseCapToAtLest v ((v.items.length : Int) + 1)).cap := by
  unfold Append
  have h := appendGo_cap v [x]
  unfold len at h
  simpa using h

theorem Add_state_inv (v : Vector) (i x : Int) (h : (v.items.length : Int) ≤ v.cap) :
    (((Add v i x).1).items.length : Int) ≤ ((Add v i x).1).cap
      ∧ v.cap ≤ ((Add v i x).1).cap := by
  unfold Add
  split
  · exact appendGo_inv v [x]
  · split
    · exact ⟨h, le_refl _⟩
    · dsimp
      rw [copySetSteps_length]
      have hv1 := increaseCapToAtLest_le v ((len v : Int) + 1)
      have hv2 := sliceAppend_inv (increaseCapToAtLest v ((len v : Int) + 1)) [0]
      exact ⟨hv2.1, le_trans hv1.1 hv2.2⟩

theorem Set_state_inv (v : Vector) (i x : Int) (h : (v.items.length : Int) ≤ v.cap) :
    (((Set v i x).1).items.length : Int) ≤ ((Set v i x).1).cap
      ∧ v.cap ≤ ((Set v i x).1).cap := by
  unfold Set
  split
  · exact ⟨h, le_refl _⟩
  · dsimp
    rw [List.length_set]
    exact ⟨h, le_refl _⟩

theorem Remove_state_inv (v : Vector) (i : Int) (h : (v.items.length : Int) ≤ v.cap) :
    (((Remove v i).1).items.length : Int) ≤ ((Remove v i).1).cap
      ∧ v.cap ≤ ((Remove v i).1).cap := by
  unfold Remove removeGo
  split
  · exact ⟨h, le_refl _⟩
  · dsimp
    rw [List.length_append, List.length_take, List.length_drop]
    constructor
    · omega
    · exact le_refl _

theorem Remove_cap (v : Vector) (i : Int) : ((Remove v i).1).cap = v.cap := by
  unfold Remove removeGo
  split <;> rfl

theorem RemoveIf_state_inv (v : Vector) (p : Int → Bool)
    (h : (v.items.length : Int) ≤ v.cap) :
    (((RemoveIf v p)).items.length : Int) ≤ (RemoveIf v p).cap
      ∧ v.cap ≤ (RemoveIf v p).cap := by
  have hc : (RemoveIf v p).cap = v.cap := rfl
  rw [hc, RemoveIf_items]
  have := List.length_filter_le (fun x => !(p x)) v.items
  exact ⟨by omega, le_refl _⟩

theorem Clear_state_inv (v : Vector) (h : (v.items.length : Int) ≤ v.cap) :
    (((Clear v)).items.length : Int) ≤ (Clear v).cap ∧ v.cap ≤ (Clear v).cap := by
  have h0 : (0 : Int) ≤ (v.items.length : Int) := by positivity
  exact ⟨by simpa [Clear] using le_trans h0 h, le_refl _⟩

theorem stepOp_inv (v : Vector) (o : Op) (h : (v.items.length : Int) ≤ v.cap) :
    ((stepOp v o).items.length : Int) ≤ (stepOp v o).cap
      ∧ v.cap ≤ (stepOp v o).cap := by
  cases o with
  | add i x => exact Add_state_inv v i x h
  | set i x => exact Set_state_inv v i x h
  | append x => exact appendGo_inv v [x]
  | appendAll xs => exact appendGo_inv v xs
  | remove i => exact Remove_state_inv v i h
  | removeIf p => exact RemoveIf_state_inv v p h
  | clear => exact Clear_state_inv v h

theorem runOps_inv (ops : List Op) :
    ∀ v : Vector, (v.items.length : Int) ≤ v.cap →
      ((runOps v ops).items.length : Int) ≤ (runOps v ops).cap
        ∧ v.cap ≤ (runOps v ops).cap := by
  induction ops with
  | nil => intro v h; exact ⟨h, le_refl _⟩
  | cons o rest ih =>
    intro v h
    have h1 := stepOp_inv v o h
    have h2 := ih (stepOp v o) h1.1
    exact ⟨h2.1, le_trans h1.2 h2.2⟩

/-! ### Sequential appends from a fresh default vector -/

theorem foldl_Append_New (xs : List Int) (h : xs.length ≤ 11) :
    (List.foldl Append New xs).items = xs
      ∧ (List.foldl Append New xs).cap = (if xs.length ≤ 10 then 10 else 20)
      ∧ (List.foldl Append New xs).multiplier = 2 := by
  induction xs using List.reverseRecOn with
  | nil => exact ⟨rfl, rfl, rfl⟩
  | append_singleton ys y ih =>
    have hy : ys.length ≤ 10 := by
      simp at h
      omega
    obtain ⟨hitems, hcap, hmult⟩ := ih (by omega)
    rw [List.foldl_concat]
    have hlen : (List.foldl Append New ys).items.length = ys.length := by
      rw [hitems]
    have hcap10 : (List.foldl Append New ys).cap = 10 := by
      rw [hcap, if_pos hy]
    refine ⟨by rw [Append_items, hitems], ?_, by rw [Append_multiplier, hmult]⟩
    rw [Append_cap, increaseCapToAtLest_cap, hlen, hcap10, hmult, List.length_append]
    rcases lt_or_eq_of_le hy with h10 | h10
    · have c1 : ((ys.length : Int) + 1 ≤ 10) := by omega
      have c2 : (ys.length + [y].length ≤ 10) := by simp; omega
      rw [if_pos c1, if_pos c2]
    · have c1 : ¬((ys.length : Int) + 1 ≤ 10) := by omega
      have c2 : ¬(ys.length + [y].length ≤ 10) := by simp; omega
      have c3 : ¬((10 : Int) * 2 < (ys.length : Int) + 1) := by omega
      rw [if_neg c1, if_neg c2, if_neg c3]
      norm_num

/-! ### Claim theorems -/

/-- C1: the claim states that `Clone()` returns a new Vector with the same
multiplier, capacity and contents, independent of the original.  The code
cannot satisfy it: the closure-local `r :=` shadows the named return, so
`Clone()` returns nil (modelled `none`), while the discarded local copy
(`cloneShadowed`) is exactly the vector the claim describes. -/
theorem C1_clone_returns_nil :
    Clone (From [1, 2, 3]) = none
      ∧ (cloneShadowed (From [1, 2, 3])).items = (From [1, 2, 3]).items
      ∧ (cloneShadowed (From [1, 2, 3])).cap = (From [1, 2, 3]).cap
      ∧ (cloneShadowed (From [1, 2, 3])).multiplier = (From [1, 2, 3]).multiplier := by
  exact ⟨rfl, by decide, by decide, by decide⟩

/-- C2 counterexample: the claim says `Add(L, item)` on a non-empty vector of
length `L` succeeds and appends.  On the 1-element vector `[5]`, `Add(1, 99)`
instead fails with the invalid-index error and changes nothing. -/
theorem C2_counterexample :
    Add (From [5]) 1 99 = (From [5], some GoError.invalidIndex) := by
  decide

/-- C2 amended: on a non-empty vector of length `L`, `Add(i, item)` fails with
the invalid-index error for every `i ≥ L` — including `i = L`: `checkIndex`
admits only `0 ≤ i < L`, and the append shortcut applies solely to index 0 on
an empty vector. -/
theorem C2_amended_add_at_length_errors (v : Vector) (i x : Int)
    (hne : v.items ≠ []) (hi : (v.items.length : Int) ≤ i) :
    Add v i x = (v, some GoError.invalidIndex) :=
  Add_err v i x (Or.inr ⟨hi, by rintro ⟨h0, hemp⟩; exact hne hemp⟩)

/-- C2 witness: the amended statement at the concrete vector `[5]` and
index 2. -/
theorem C2_witness :
    Add (From [5]) 2 42 = (From [5], some GoError.invalidIndex) :=
  C2_amended_add_at_length_errors (From [5]) 2 42 (by decide) (by decide)

/-- C3: `Add(0, item)` on an empty vector succeeds and yields `[item]`; every
other out-of-range index (negative, or at/past the length of a non-empty
vector, or nonzero on an empty vector) makes `Add` fail with the
invalid-index error; and `Set`, `Remove`, `Peek` fail with the invalid-index
error for every index outside `0 ≤ index < length`, with no append
exception. -/
theorem C3_index_validation :
    (∀ (v : Vector) (x : Int), v.items = [] →
        (Add v 0 x).2 = none ∧ (Add v 0 x).1.items = [x])
    ∧ (∀ (v : Vector) (i x : Int),
        i < 0 ∨ (v.items ≠ [] ∧ (v.items.length : Int) ≤ i)
            ∨ (v.items = [] ∧ i ≠ 0) →
          Add v i x = (v, some GoError.invalidIndex))
    ∧ (∀ (v : Vector) (i : Int), i < 0 ∨ (v.items.length : Int) ≤ i →
        (∀ x, Set v i x = (v, some GoError.invalidIndex))
          ∧ Remove v i = (v, 0, some GoError.invalidIndex)
          ∧ Peek v i = (0, some GoError.invalidIndex)) := by
  refine ⟨?_, ?_, ?_⟩
  · intro v x h
    rw [Add_empty v x h]
    constructor
    · rfl
    · rw [appendGo_items, h]
      rfl
  · intro v i x h
    apply Add_err
    rcases h with h | ⟨hne, hle⟩ | ⟨hemp, hi⟩
    · exact Or.inl h
    · exact Or.inr ⟨hle, by rintro ⟨h0, he⟩; exact hne he⟩
    · rcases lt_or_le i 0 with hneg | hpos
      · exact Or.inl hneg
      · refine Or.inr ⟨by rw [hemp]; simpa using hpos, ?_⟩
        rintro ⟨h0, _⟩
        exact hi h0
  · intro v i h
    exact ⟨fun x => Set_err v i x h, Remove_err v i h, Peek_err v i h⟩

/-- C3 witness: the three components at concrete inputs — append-at-0 on an
empty vector, a rejected `Add` past the end and on an empty vector at index 1,
and rejected `Set`, `Remove`, `Peek`. -/
theorem C3_witness :
    ((Add (From []) 0 7).2 = none ∧ (Add (From []) 0 7).1.items = [7])
      ∧ Add (From [1]) 1 9 = (From [1], some GoError.invalidIndex)
      ∧ Add New 1 9 = (New, some GoError.invalidIndex)
      ∧ (Set (From [1]) 2 5 = (From [1], some GoError.invalidIndex)
          ∧ Remove (From [1]) (-1) = (From [1], 0, some GoError.invalidIndex)
          ∧ Peek New 0 = (0, some GoError.invalidIndex)) := by
  refine ⟨C3_index_validation.1 (From []) 7 (by decide), ?_, ?_, ?_, ?_, ?_⟩
  · exact C3_index_validation.2.1 (From [1]) 1 9 (Or.inr (Or.inl (by decide)))
  · exact C3_index_validation.2.1 New 1 9 (Or.inr (Or.inr (by decide)))
  · exact (C3_index_validation.2.2 (From [1]) 2 (by decide)).1 5
  · exact (C3_index_validation.2.2 (From [1]) (-1) (by decide)).2.1
  · exact (C3_index_validation.2.2 New 0 (by decide)).2.2

/-- C4: when the required capacity exceeds the current one, the new capacity
is `max(cap × multiplier, required)` and the growth step keeps the items (and
hence the length); from a fresh default vector, `Cap()` stays 10 through the
first 10 sequential appends and is 20 after the 11th. -/
theorem C4_growth_and_default_caps :
    (∀ (v : Vector) (t : Int), v.cap < t →
        (increaseCapToAtLest v t).cap = max (v.cap * v.multiplier) t
          ∧ (increaseCapToAtLest v t).items = v.items)
    ∧ (∀ xs : List Int, xs.length ≤ 10 → Cap (List.foldl Append New xs) = 10)
    ∧ (∀ xs : List Int, xs.length = 11 → Cap (List.foldl Append New xs) = 20) := by
  refine ⟨fun v t ht => ⟨increaseCapToAtLest_cap_of_lt v t ht,
    increaseCapToAtLest_items v t⟩, ?_, ?_⟩
  · intro xs h
    have hc := (foldl_Append_New xs (by omega)).2.1
    unfold Cap
    rw [hc, if_pos h]
  · intro xs h
    have hc := (foldl_Append_New xs (by omega)).2.1
    unfold Cap
    rw [hc, if_neg (by omega)]

/-- C4 witness: the growth formula at a capacity-2, multiplier-3 vector with
required capacity 3, and the default-capacity schedule after 3 and after 11
appends. -/
theorem C4_witness :
    ((increaseCapToAtLest (NewWithCap 2 3) 3).cap
          = max ((NewWithCap 2 3).cap * (NewWithCap 2 3).multiplier) 3
        ∧ (increaseCapToAtLest (NewWithCap 2 3) 3).items = (NewWithCap 2 3).items)
      ∧ Cap (List.foldl Append New [1, 2, 3]) = 10
      ∧ Cap (List.foldl Append New [1, 2, 3, 4, 5, 6, 7, 8, 9, 10, 11]) = 20 :=
  ⟨C4_growth_and_default_caps.1 (NewWithCap 2 3) 3 (by decide),
   C4_growth_and_default_caps.2.1 [1, 2, 3] (by decide),
   C4_growth_and_default_caps.2.2 [1, 2, 3, 4, 5, 6, 7, 8, 9, 10, 11] (by decide)⟩

/-- C5: starting from any state satisfying `length ≤ capacity`, every single
operation and every sequence of operations preserves `length ≤ capacity` and
never decreases the capacity; `Remove` and `Clear` leave the capacity exactly
unchanged. -/
theorem C5_capacity_invariant (v : Vector) (h : (v.items.length : Int) ≤ v.cap) :
    (∀ o : Op, ((stepOp v o).items.length : Int) ≤ (stepOp v o).cap
        ∧ v.cap ≤ (stepOp v o).cap)
      ∧ (∀ ops : List Op, ((runOps v ops).items.length : Int) ≤ (runOps v ops).cap
          ∧ v.cap ≤ (runOps v ops).cap)
      ∧ (∀ i : Int, ((Remove v i).1).cap = v.cap)
      ∧ (Clear v).cap = v.cap :=
  ⟨fun o => stepOp_inv v o h, fun ops => runOps_inv ops v h,
   fun i => Remove_cap v i, rfl⟩

/-- C5 witness: the invariant and capacity monotonicity after a concrete
operation sequence from a fresh vector, plus the unchanged capacities of
`Remove` and `Clear` there. -/
theorem C5_witness :
    (((runOps New [Op.append 1, Op.append 2, Op.clear, Op.add 0 5]).items.length : Int)
          ≤ (runOps New [Op.append 1, Op.append 2, Op.clear, Op.add 0 5]).cap
        ∧ New.cap ≤ (runOps New [Op.append 1, Op.append 2, Op.clear, Op.add 0 5]).cap)
      ∧ ((Remove New 0).1).cap = New.cap
      ∧ (Clear New).cap = New.cap :=
  ⟨(C5_capacity_invariant New (by decide)).2.1
      [Op.append 1, Op.append 2, Op.clear, Op.add 0 5],
   (C5_capacity_invariant New (by decide)).2.2.1 0,
   (C5_capacity_invariant New (by decide)).2.2.2⟩

/-- C6: `Any` and `All` are both false on an empty vector for every predicate
(`All` deliberately so); on a non-empty vector `Any` is true exactly when some
element satisfies the predicate and `All` exactly when every element does. -/
theorem C6_any_all (v : Vector) (p : Int → Bool) :
    (v.items = [] → Any v p = false ∧ All v p = false)
      ∧ (v.items ≠ [] →
          (Any v p = true ↔ ∃ x ∈ v.items, p x = true)
            ∧ (All v p = true ↔ ∀ x ∈ v.items, p x = true)) := by
  constructor
  · intro h
    constructor
    · rw [Any_eq_any, h]
      rfl
    · exact All_empty v p h
  · intro h
    constructor
    · rw [Any_eq_any]
      exact List.any_eq_true
    · rw [All_eq_all v p h]
      exact List.all_eq_true

/-- C6 witness: both quantifiers on the empty vector with the constantly-true
predicate, and both directions on `[1, 2, 3, 4]`. -/
theorem C6_witness :
    (Any (From []) (fun _ => true) = false ∧ All (From []) (fun _ => true) = false)
      ∧ (Any (From [1, 2, 3, 4]) (fun x => x == 3) = true
          ↔ ∃ x ∈ (From [1, 2, 3, 4]).items, (x == 3) = true)
      ∧ (All (From [1, 2, 3, 4]) (fun x => x == 3) = true
          ↔ ∀ x ∈ (From [1, 2, 3, 4]).items, (x == 3) = true) :=
  ⟨(C6_any_all (From []) (fun _ => true)).1 (by decide),
   ((C6_any_all (From [1, 2, 3, 4]) (fun x => x == 3)).2 (by decide)).1,
   ((C6_any_all (From [1, 2, 3, 4]) (fun x => x == 3)).2 (by decide)).2⟩

/-- C7: `RemoveIf` keeps exactly the elements not satisfying the predicate,
in their original relative order, and is a no-op on an empty vector or when
no element matches; it has no error outcome. -/
theorem C7_removeIf_filters (v : Vector) (p : Int → Bool) :
    (RemoveIf v p).items = v.items.filter (fun x => !(p x))
      ∧ (v.items = [] → RemoveIf v p = v)
      ∧ ((∀ x ∈ v.items, p x = false) → RemoveIf v p = v) := by
  refine ⟨RemoveIf_items v p, ?_, ?_⟩
  · intro h
    refine vectorEq (RemoveIf v p) v rfl ?_ rfl
    rw [RemoveIf_items, h]
    rfl
  · intro h
    refine vectorEq (RemoveIf v p) v rfl ?_ rfl
    rw [RemoveIf_items]
    rw [List.filter_eq_self.mpr]
    intro a ha
    simp [h a ha]

/-- C7 witness: the filtering identity on `[1, 2, 3, 4]` with the predicate
`< 3`, and the two no-op cases at concrete inputs. -/
theorem C7_witness :
    (RemoveIf (From [1, 2, 3, 4]) (fun x => decide (x < 3))).items
        = (From [1, 2, 3, 4]).items.filter (fun x => !(decide (x < 3)))
      ∧ RemoveIf (From []) (fun _ => true) = From []
      ∧ RemoveIf (From [1, 2]) (fun _ => false) = From [1, 2] :=
  ⟨(C7_removeIf_filters (From [1, 2, 3, 4]) (fun x => decide (x < 3))).1,
   (C7_removeIf_filters (From []) (fun _ => true)).2.1 (by decide),
   (C7_removeIf_filters (From [1, 2]) (fun _ => false)).2.2 (by decide)⟩

/-- C8: `Accumulate` returns a vector of the same length whose element 0 is
the source head and whose element `i+1` is `cb(result[i], source[i+1])`;
empty input gives an empty result and a singleton is returned unchanged. -/
theorem C8_accumulate (v : Vector) (cb : Int → Int → Int) :
    (Accumulate v cb).items.length = v.items.length
      ∧ (v.items = [] → (Accumulate v cb).items = [])
      ∧ (∀ (x : Int) (xs : List Int), v.items = x :: xs →
          (Accumulate v cb).items.getD 0 0 = x
            ∧ (∀ i : Nat, i + 1 < v.items.length →
                (Accumulate v cb).items.getD (i + 1) 0
                  = cb ((Accumulate v cb).items.getD i 0)
                      (v.items.getD (i + 1) 0)))
      ∧ (∀ a : Int, v.items = [a] → (Accumulate v cb).items = [a]) := by
  cases hv : v.items with
  | nil =>
    have he : (Accumulate v cb).items = [] := by
      rw [Accumulate_empty v cb hv]
      rfl
    refine ⟨by rw [he], fun _ => he, ?_, ?_⟩
    · intro x xs hx
      exact absurd hx (by simp)
    · intro a ha
      exact absurd ha (by simp)
  | cons x xs =>
    have hi : (Accumulate v cb).items = x :: accTail cb x xs :=
      Accumulate_items v cb x xs hv
    refine ⟨?_, ?_, ?_, ?_⟩
    · rw [hi]
      simp [accTail_length]
    · intro h
      exact absurd h (by simp)
    · intro y ys hx
      injection hx with hxy hxs
      subst hxy
      subst hxs
      constructor
      · rw [hi]
        rfl
      · intro i hlen
        have hi2 : i < xs.length := by simpa using hlen
        rw [hi, List.getD_cons_succ, List.getD_cons_succ]
        exact accTail_getD cb xs x i hi2
    · intro a ha
      injection ha with hxa hxs
      subst hxa
      subst hxs
      rw [hi]
      rfl

/-- C8 witness: the running sums of `[1, 2, 3, 4, 5]` — head 1, the recurrence
at index 2, and the unchanged singleton `[9]`. -/
theorem C8_witness :
    (Accumulate (From [1, 2, 3, 4, 5]) (fun a b => a + b)).items.getD 0 0 = 1
      ∧ (Accumulate (From [1, 2, 3, 4, 5]) (fun a b => a + b)).items.getD 2 0
          = (Accumulate (From [1, 2, 3, 4, 5]) (fun a b => a + b)).items.getD 1 0
              + (From [1, 2, 3, 4, 5]).items.getD 2 0
      ∧ (Accumulate (From [9]) (fun a b => a + b)).items = [9] :=
  ⟨((C8_accumulate (From [1, 2, 3, 4, 5]) (fun a b => a + b)).2.2.1 1 [2, 3, 4, 5]
      (by decide)).1,
   ((C8_accumulate (From [1, 2, 3, 4, 5]) (fun a b => a + b)).2.2.1 1 [2, 3, 4, 5]
      (by decide)).2 1 (by decide),
   (C8_accumulate (From [9]) (fun a b => a + b)).2.2.2 9 (by decide)⟩

/-- C9: `InnerProduct` fails with the size-mismatch error exactly when the
lengths differ, and on equal lengths returns the sum of elementwise products
with a nil error. -/
theorem C9_inner_product (v o : Vector) :
    ((InnerProduct v o).2 = some GoError.sizeDiffers
        ↔ v.items.length ≠ o.items.length)
      ∧ (v.items.length = o.items.length →
          InnerProduct v o
            = ((List.zipWith (fun a b => a * b) v.items o.items).sum, none)) := by
  unfold InnerProduct len
  split <;> rename_i hlen
  · exact ⟨iff_of_true rfl hlen, fun he => absurd he hlen⟩
  · refine ⟨iff_of_false (by simp) hlen, fun _ => ?_⟩
    rw [ipLoop_eq o.items v.items 0 0]
    simp

/-- C9 witness: `[1,2,3] ⋅ [2,3,4] = 20`, the empty product 0, and the
size-mismatch error for lengths 1 and 0. -/
theorem C9_witness :
    InnerProduct (From [1, 2, 3]) (From [2, 3, 4]) = (20, none)
      ∧ InnerProduct (From []) (From []) = (0, none)
      ∧ (InnerProduct (From [1]) (From [])).2 = some GoError.sizeDiffers := by
  refine ⟨?_, ?_, ?_⟩
  · rw [(C9_inner_product (From [1, 2, 3]) (From [2, 3, 4])).2 (by decide)]
    decide
  · rw [(C9_inner_product (From []) (From [])).2 (by decide)]
    decide
  · exact ((C9_inner_product (From [1]) (From [])).1).mpr (by decide)

/-- C10: whenever `Add`, `Set` or `Remove` returns the invalid-index error,
the vector state it returns is exactly the state it was given. -/
theorem C10_failed_ops_preserve_state (v : Vector) (i x : Int) :
    ((Add v i x).2 = some GoError.invalidIndex → (Add v i x).1 = v)
      ∧ ((Set v i x).2 = some GoError.invalidIndex → (Set v i x).1 = v)
      ∧ ((Remove v i).2.2 = some GoError.invalidIndex → (Remove v i).1 = v) := by
  refine ⟨?_, ?_, ?_⟩
  · unfold Add
    split
    · intro habs
      simp at habs
    · split
      · intro _
        rfl
      · intro habs
        simp at habs
  · unfold Set
    split
    · intro _
      rfl
    · intro habs
      simp at habs
  · unfold Remove
    split
    · intro _
      rfl
    · intro habs
      simp at habs

/-- C10 witness: the rejected `Add`, `Set` and `Remove` at index 5 on `[1, 2]`
leave the state untouched. -/
theorem C10_witness :
    (Add (From [1, 2]) 5 9).1 = From [1, 2]
      ∧ (Set (From [1, 2]) 5 9).1 = From [1, 2]
      ∧ (Remove (From [1, 2]) 5).1 = From [1, 2] :=
  ⟨(C10_failed_ops_preserve_state (From [1, 2]) 5 9).1 (by decide),
   (C10_failed_ops_preserve_state (From [1, 2]) 5 9).2.1 (by decide),
   (C10_failed_ops_preserve_state (From [1, 2]) 5 9).2.2 (by decide)⟩

end GoVector
